import Mathlib

/-
Verification of `scripts/multi-chrome/generate_icons.py`.

The script is embedded shallowly:
* Python floats are modelled as exact rationals (ℚ); `x % 1.0` becomes
  `mod1` (the fractional part, which like Python's `%` with a positive
  modulus always lands in `[0, 1)`), and `int(x)` becomes `pyint`
  (truncation toward zero).
* `colorsys.rgb_to_hsv` / `colorsys.hsv_to_rgb` (CPython's `colorsys`
  module, imported by the script) are embedded line by line.
* The drawing half of `create_chrome_icon` is embedded as the list of
  draw calls it issues, with the font-metric call `draw.textbbox`
  abstracted as an oracle parameter; its filesystem half as the list of
  filesystem effects it performs.
* The `__main__` block is embedded as the list of effects it performs
  (directory creation followed by the twenty render calls, in order).
-/

namespace GenerateIcons

/-- Python `x % 1.0` on a real value: the fractional part `x - ⌊x⌋`.
Python's `%` takes the sign of the (positive) modulus, so the result is
in `[0, 1)`, exactly like `Int.fract`. -/
def mod1 (x : ℚ) : ℚ := x - ⌊x⌋

/-- Python `int(x)` on a real value: truncation toward zero. -/
def pyint (x : ℚ) : ℤ := if x < 0 then ⌈x⌉ else ⌊x⌋

/-- `colorsys.rgb_to_hsv` from CPython, over exact rationals. -/
def rgb_to_hsv (r g b : ℚ) : ℚ × ℚ × ℚ :=
  let maxc := max r (max g b)
  let minc := min r (min g b)
  let rangec := maxc - minc
  let v := maxc
  if minc = maxc then (0, 0, v)
  else
    let s := rangec / maxc
    let rc := (maxc - r) / rangec
    let gc := (maxc - g) / rangec
    let bc := (maxc - b) / rangec
    let h :=
      if r = maxc then bc - gc
      else if g = maxc then 2 + rc - bc
      else 4 + gc - rc
    (mod1 (h / 6), s, v)

/-- `colorsys.hsv_to_rgb` from CPython, over exact rationals.
`int(h*6.0)` truncates (`pyint`), and `i % 6` is Python's mod, which for
the positive modulus 6 agrees with `Int.emod`. -/
def hsv_to_rgb (h s v : ℚ) : ℚ × ℚ × ℚ :=
  if s = 0 then (v, v, v)
  else
    let i6 := pyint (h * 6)
    let f := h * 6 - (i6 : ℚ)
    let p := v * (1 - s)
    let q := v * (1 - s * f)
    let t := v * (1 - s * (1 - f))
    let i := i6 % 6
    if i = 0 then (v, t, p)
    else if i = 1 then (q, v, p)
    else if i = 2 then (p, v, t)
    else if i = 3 then (p, q, v)
    else if i = 4 then (t, p, v)
    else (v, p, q)

/-- `adjust_hue` from `generate_icons.py`: normalize the 8-bit channels,
convert to HSV, add the shift to the hue modulo 1.0, convert back, and
truncate each channel times 255 to an integer. -/
def adjust_hue (r g b : ℤ) (hue_shift : ℚ) : ℤ × ℤ × ℤ :=
  let r_n : ℚ := (r : ℚ) / 255
  let g_n : ℚ := (g : ℚ) / 255
  let b_n : ℚ := (b : ℚ) / 255
  let hsv := rgb_to_hsv r_n g_n b_n
  let h := mod1 (hsv.1 + hue_shift)
  let rgb := hsv_to_rgb h hsv.2.1 hsv.2.2
  (pyint (rgb.1 * 255), pyint (rgb.2.1 * 255), pyint (rgb.2.2 * 255))

/-- A fill color passed to a PIL draw call: the script uses both RGB
triples and RGBA quadruples. -/
inductive PyColor
  | rgb (r g b : ℤ)
  | rgba (r g b a : ℤ)
deriving DecidableEq, Repr

/-- One 2-D draw call issued by `create_chrome_icon` on its canvas. -/
inductive DrawOp
  | pieslice (bbox : ℤ × ℤ × ℤ × ℤ) (startAngle endAngle : ℤ) (fill : PyColor)
  | ellipse (bbox : ℤ × ℤ × ℤ × ℤ) (fill : PyColor)
  | text (xy : ℤ × ℤ) (str : String) (fill : PyColor)
deriving DecidableEq, Repr

/-- A filesystem effect of the script. -/
inductive FsEffect
  | makedirs (dir : String) (exist_ok : Bool)
  | save (path : String) (format : String) (sizes : List (ℤ × ℤ))
deriving DecidableEq, Repr

/-- Whether a filesystem effect is a directory creation. -/
def FsEffect.isMakedirs : FsEffect → Bool
  | .makedirs _ _ => true
  | .save _ _ _ => false

/-- The sequence of draw calls issued by `create_chrome_icon(number,
hue_shift, ...)`, in program order.  `textbbox` is the font-metric
oracle standing for `draw.textbbox((0, 0), text, font=font)` (the text
is measured for whichever font the try/except selected).  Python's `//`
is floor division, `Int.fdiv`. -/
def create_chrome_icon_draw_ops (number : ℤ) (hue_shift : ℚ)
    (textbbox : String → ℤ × ℤ × ℤ × ℤ) : List DrawOp :=
  let size : ℤ := 256
  let color_red := adjust_hue 219 68 55 hue_shift
  let color_yellow := adjust_hue 244 180 0 hue_shift
  let color_green := adjust_hue 15 157 88 hue_shift
  let color_blue := ((66 : ℤ), (133 : ℤ), (244 : ℤ))
  let cx := Int.fdiv size 2
  let cy := Int.fdiv size 2
  let r_outer : ℤ := 120
  let r_white : ℤ := 58
  let r_inner : ℤ := 50
  let bbox_outer := (cx - r_outer, cy - r_outer, cx + r_outer, cy + r_outer)
  let bbox_white := (cx - r_white, cy - r_white, cx + r_white, cy + r_white)
  let bbox_inner := (cx - r_inner, cy - r_inner, cx + r_inner, cy + r_inner)
  let text := toString number
  let bbox := textbbox text
  let text_w := bbox.2.2.1 - bbox.1
  let text_h := bbox.2.2.2 - bbox.2.1
  let text_x := cx - Int.fdiv text_w 2
  let text_y := cy - Int.fdiv text_h 2 - 8
  [ .pieslice bbox_outer 210 330 (.rgb color_red.1 color_red.2.1 color_red.2.2),
    .pieslice bbox_outer 330 90 (.rgb color_yellow.1 color_yellow.2.1 color_yellow.2.2),
    .pieslice bbox_outer 90 210 (.rgb color_green.1 color_green.2.1 color_green.2.2),
    .ellipse bbox_white (.rgb 255 255 255),
    .ellipse bbox_inner (.rgb color_blue.1 color_blue.2.1 color_blue.2.2),
    .text (text_x + 2, text_y + 2) text (.rgba 0 0 0 128),
    .text (text_x, text_y) text (.rgb 255 255 255) ]

/-- The filesystem effects performed by `create_chrome_icon`: exactly
one `image.save(output_path, format="ICO", sizes=...)`, nothing else. -/
def create_chrome_icon_fs_effects (output_path : String) : List FsEffect :=
  [ .save output_path "ICO" [(256, 256), (128, 128), (64, 64), (32, 32)] ]

/-- A top-level effect of the `__main__` block. -/
inductive Effect
  | makedirs (dir : String) (exist_ok : Bool)
  | render (number : ℤ) (hue_shift : ℚ) (path : String)
deriving DecidableEq, Repr

/-- `os.path.join` for the one (POSIX-style) use the script makes. -/
def os_path_join (a b : String) : String := a ++ "/" ++ b

/-- The output directory name bound in `__main__`. -/
def icons_dir : String := "icons"

/-- The hue shift computed for loop index `i`: `i * (1.0 / 20.0)`. -/
def batch_shift (i : ℤ) : ℚ := (i : ℚ) * (1 / 20)

/-- The effects of the `__main__` block, in program order: one
`os.makedirs(icons_dir, exist_ok=True)`, then for `i` in `range(1, 21)`
one render call with label `i`, shift `i * (1.0/20.0)` and path
`os.path.join(icons_dir, "icon_" + str(i) + ".ico")`. -/
def main_effects : List Effect :=
  Effect.makedirs icons_dir true ::
    (List.range 20).map (fun k =>
      Effect.render ((k : ℤ) + 1) (batch_shift ((k : ℤ) + 1))
        (os_path_join icons_dir ("icon_" ++ toString ((k : ℤ) + 1) ++ ".ico")))

/-- The hue expression computed by `rgb_to_hsv` in its non-grey branch
(the three-way `if` on which channel attains the maximum), before the
final `(h/6.0) % 1.0` normalization.  Factored out of `rgb_to_hsv` for
the proofs; `rgb_to_hsv_def` below checks by `rfl` that `rgb_to_hsv`
is literally this expression. -/
def rgbHue (r g b : ℚ) : ℚ :=
  let maxc := max r (max g b)
  let minc := min r (min g b)
  let rangec := maxc - minc
  if r = maxc then (maxc - b) / rangec - (maxc - g) / rangec
  else if g = maxc then 2 + (maxc - r) / rangec - (maxc - b) / rangec
  else 4 + (maxc - g) / rangec - (maxc - r) / rangec

/-- The six-way sector dispatch at the end of `hsv_to_rgb` (its `i` is
the sector index, `f` the position within the sector).  Factored out of
`hsv_to_rgb` for the proofs; `hsv_to_rgb_def` below checks by `rfl`
that `hsv_to_rgb` is literally this expression. -/
def sectorTriple (i : ℤ) (f s v : ℚ) : ℚ × ℚ × ℚ :=
  let p := v * (1 - s)
  let q := v * (1 - s * f)
  let t := v * (1 - s * (1 - f))
  if i = 0 then (v, t, p)
  else if i = 1 then (q, v, p)
  else if i = 2 then (p, v, t)
  else if i = 3 then (p, q, v)
  else if i = 4 then (t, p, v)
  else (v, p, q)

/-- The HSV representation of an 8-bit color, exactly as the script
computes it on entry to `adjust_hue`: normalize by 255, then
`colorsys.rgb_to_hsv`. -/
def inputHSV (r g b : ℤ) : ℚ × ℚ × ℚ :=
  rgb_to_hsv ((r : ℚ) / 255) ((g : ℚ) / 255) ((b : ℚ) / 255)

/-- The HSV representation of the color returned by `adjust_hue`. -/
def outputHSV (r g b : ℤ) (shift : ℚ) : ℚ × ℚ × ℚ :=
  inputHSV (adjust_hue r g b shift).1 (adjust_hue r g b shift).2.1
    (adjust_hue r g b shift).2.2

/-- A concrete font-metric oracle: every string measures to the
bounding box `(0, 0, 30, 40)` (width 30, height 40). -/
def tb0 : String → ℤ × ℤ × ℤ × ℤ := fun _ => (0, 0, 30, 40)

/-- The HSV representation of the color produced by `hsv_to_rgb`:
the compound observation used to state the hue half of the
rotation contract. -/
def hsvRoundtrip (h s v : ℚ) : ℚ × ℚ × ℚ :=
  rgb_to_hsv (hsv_to_rgb h s v).1 (hsv_to_rgb h s v).2.1 (hsv_to_rgb h s v).2.2

/-! ### Basic lemmas about the float-operation embeddings -/

lemma rgb_to_hsv_def (r g b : ℚ) :
    rgb_to_hsv r g b =
      if min r (min g b) = max r (max g b) then (0, 0, max r (max g b))
      else (mod1 (rgbHue r g b / 6),
            (max r (max g b) - min r (min g b)) / max r (max g b),
            max r (max g b)) := rfl

lemma hsv_to_rgb_def (h s v : ℚ) :
    hsv_to_rgb h s v =
      if s = 0 then (v, v, v)
      else sectorTriple (pyint (h * 6) % 6) (h * 6 - (pyint (h * 6) : ℚ)) s v := rfl

lemma mod1_eq_fract (x : ℚ) : mod1 x = Int.fract x := rfl

lemma mod1_nonneg (x : ℚ) : 0 ≤ mod1 x := Int.fract_nonneg x

lemma mod1_lt_one (x : ℚ) : mod1 x < 1 := Int.fract_lt_one x

lemma mod1_eq_self {x : ℚ} (h0 : 0 ≤ x) (h1 : x < 1) : mod1 x = x :=
  Int.fract_eq_self.2 ⟨h0, h1⟩

lemma mod1_add_int (x : ℚ) (k : ℤ) : mod1 (x + k) = mod1 x :=
  Int.fract_add_int x k

lemma mod1_of_neg {x : ℚ} (h0 : -1 ≤ x) (h1 : x < 0) : mod1 x = x + 1 := by
  have hf : ⌊x⌋ = -1 := by
    rw [Int.floor_eq_iff]
    constructor
    · exact_mod_cast h0
    · push_cast; linarith
  simp [mod1, hf]

lemma pyint_of_nonneg {x : ℚ} (h : 0 ≤ x) : pyint x = ⌊x⌋ := by
  simp [pyint, not_lt.2 h]

lemma pyint_intCast (n : ℤ) : pyint (n : ℚ) = n := by
  unfold pyint
  split <;> simp

/-! ### Structure of the HSV conversions -/

lemma min_le_max₃ (r g b : ℚ) : min r (min g b) ≤ max r (max g b) :=
  (min_le_left r _).trans (le_max_left r _)

lemma rgb_to_hsv_val (r g b : ℚ) : (rgb_to_hsv r g b).2.2 = max r (max g b) := by
  rw [rgb_to_hsv_def]; split <;> rfl

lemma rgb_to_hsv_hue_mem (r g b : ℚ) :
    0 ≤ (rgb_to_hsv r g b).1 ∧ (rgb_to_hsv r g b).1 < 1 := by
  rw [rgb_to_hsv_def]; split
  · norm_num
  · exact ⟨mod1_nonneg _, mod1_lt_one _⟩

lemma max₃_pos_of_ne {r g b : ℚ} (h0r : 0 ≤ r) (h0g : 0 ≤ g) (h0b : 0 ≤ b)
    (hne : ¬ min r (min g b) = max r (max g b)) : 0 < max r (max g b) := by
  have hm0 : 0 ≤ min r (min g b) := le_min h0r (le_min h0g h0b)
  have := min_le_max₃ r g b
  rcases lt_or_eq_of_le this with h | h
  · linarith
  · exact absurd h hne

lemma rgb_to_hsv_sat_mem (r g b : ℚ) (h0r : 0 ≤ r) (h0g : 0 ≤ g) (h0b : 0 ≤ b) :
    0 ≤ (rgb_to_hsv r g b).2.1 ∧ (rgb_to_hsv r g b).2.1 ≤ 1 := by
  rw [rgb_to_hsv_def]; split
  · norm_num
  · rename_i hne
    have hm0 : 0 ≤ min r (min g b) := le_min h0r (le_min h0g h0b)
    have hmM := min_le_max₃ r g b
    have hM0 : 0 < max r (max g b) := max₃_pos_of_ne h0r h0g h0b hne
    constructor
    · exact div_nonneg (by linarith) hM0.le
    · rw [div_le_one hM0]; linarith

lemma rgb_to_hsv_min_eq (r g b : ℚ) (h0r : 0 ≤ r) (h0g : 0 ≤ g) (h0b : 0 ≤ b) :
    (rgb_to_hsv r g b).2.2 * (1 - (rgb_to_hsv r g b).2.1) = min r (min g b) := by
  rw [rgb_to_hsv_def]; split
  · rename_i h; simpa using h.symm
  · rename_i hne
    have hM0 : 0 < max r (max g b) := max₃_pos_of_ne h0r h0g h0b hne
    field_simp

lemma sector_minmax (k : ℤ) (f s v : ℚ) (hf0 : 0 ≤ f) (hf1 : f < 1)
    (hs0 : 0 ≤ s) (_hs1 : s ≤ 1) (hv : 0 ≤ v) :
    max (sectorTriple k f s v).1
        (max (sectorTriple k f s v).2.1 (sectorTriple k f s v).2.2) = v ∧
    min (sectorTriple k f s v).1
        (min (sectorTriple k f s v).2.1 (sectorTriple k f s v).2.2) = v * (1 - s) := by
  have hvs : 0 ≤ v * s := mul_nonneg hv hs0
  have hvsf : 0 ≤ v * s * f := mul_nonneg hvs hf0
  have hvsf1 : 0 ≤ v * s * (1 - f) := mul_nonneg hvs (by linarith)
  have hp_le_q : v * (1 - s) ≤ v * (1 - s * f) := by nlinarith
  have hp_le_t : v * (1 - s) ≤ v * (1 - s * (1 - f)) := by nlinarith
  have hq_le_v : v * (1 - s * f) ≤ v := by nlinarith
  have ht_le_v : v * (1 - s * (1 - f)) ≤ v := by nlinarith
  have hp_le_v : v * (1 - s) ≤ v := by nlinarith
  simp only [sectorTriple]
  split_ifs
  · exact ⟨by rw [max_eq_left hp_le_t, max_eq_left ht_le_v],
          by rw [min_eq_right hp_le_t, min_eq_right hp_le_v]⟩
  · exact ⟨by rw [max_eq_left hp_le_v, max_eq_right hq_le_v],
          by rw [min_eq_right hp_le_v, min_eq_right hp_le_q]⟩
  · exact ⟨by rw [max_eq_left ht_le_v, max_eq_right hp_le_v],
          by rw [min_eq_right ht_le_v, min_eq_left hp_le_t]⟩
  · exact ⟨by rw [max_eq_right hq_le_v, max_eq_right hp_le_v],
          by rw [min_eq_left hq_le_v, min_eq_left hp_le_q]⟩
  · exact ⟨by rw [max_eq_right hp_le_v, max_eq_right ht_le_v],
          by rw [min_eq_left hp_le_v, min_eq_right hp_le_t]⟩
  · exact ⟨by rw [max_eq_right hp_le_q, max_eq_left hq_le_v],
          by rw [min_eq_left hp_le_q, min_eq_right hp_le_v]⟩

lemma cast255_max (a b : ℤ) :
    max ((a : ℚ) / 255) ((b : ℚ) / 255) = ((max a b : ℤ) : ℚ) / 255 := by
  rw [max_div_div_right (by norm_num : (0:ℚ) ≤ 255)]
  norm_cast

lemma cast255_min (a b : ℤ) :
    min ((a : ℚ) / 255) ((b : ℚ) / 255) = ((min a b : ℤ) : ℚ) / 255 := by
  rw [min_div_div_right (by norm_num : (0:ℚ) ≤ 255)]
  norm_cast

lemma adjust_hue_extremes (R G B : ℤ) (shift : ℚ)
    (hR0 : 0 ≤ R) (hG0 : 0 ≤ G) (hB0 : 0 ≤ B) :
    max (adjust_hue R G B shift).1
        (max (adjust_hue R G B shift).2.1 (adjust_hue R G B shift).2.2) =
      max R (max G B) ∧
    min (adjust_hue R G B shift).1
        (min (adjust_hue R G B shift).2.1 (adjust_hue R G B shift).2.2) =
      min R (min G B) := by
  have h0r : (0:ℚ) ≤ (R:ℚ)/255 := by positivity
  have h0g : (0:ℚ) ≤ (G:ℚ)/255 := by positivity
  have h0b : (0:ℚ) ≤ (B:ℚ)/255 := by positivity
  set rn : ℚ := (R:ℚ)/255 with hrn
  set gn : ℚ := (G:ℚ)/255 with hgn
  set bn : ℚ := (B:ℚ)/255 with hbn
  have hM : max rn (max gn bn) = ((max R (max G B) : ℤ) : ℚ) / 255 := by
    rw [hrn, hgn, hbn, cast255_max, cast255_max]
  have hm : min rn (min gn bn) = ((min R (min G B) : ℤ) : ℚ) / 255 := by
    rw [hrn, hgn, hbn, cast255_min, cast255_min]
  set S := (rgb_to_hsv rn gn bn).2.1 with hS
  set V := (rgb_to_hsv rn gn bn).2.2 with hV
  set H := (rgb_to_hsv rn gn bn).1 with hH
  have hVval : V = ((max R (max G B) : ℤ) : ℚ) / 255 := by
    rw [hV, rgb_to_hsv_val, hM]
  have hVm : V * (1 - S) = ((min R (min G B) : ℤ) : ℚ) / 255 := by
    rw [hV, hS, rgb_to_hsv_min_eq rn gn bn h0r h0g h0b, hm]
  have hSmem := rgb_to_hsv_sat_mem rn gn bn h0r h0g h0b
  have hV0 : 0 ≤ V := by
    rw [hVval]; positivity
  have hMcast : (0:ℚ) ≤ ((max R (max G B) : ℤ) : ℚ) := by
    have h1 : (0:ℤ) ≤ max R (max G B) := le_trans hR0 (le_max_left _ _)
    exact_mod_cast h1
  have hmcast : (0:ℚ) ≤ ((min R (min G B) : ℤ) : ℚ) := by
    have h1 : (0:ℤ) ≤ min R (min G B) := le_min hR0 (le_min hG0 hB0)
    exact_mod_cast h1
  simp only [adjust_hue]
  rw [← hS, ← hV, ← hH]
  by_cases hSz : S = 0
  · rw [hsv_to_rgb_def, if_pos hSz]
    have hV255 : V * 255 = ((max R (max G B) : ℤ) : ℚ) := by
      rw [hVval]; field_simp
    have hmM : ((min R (min G B) : ℤ) : ℚ) = ((max R (max G B) : ℤ) : ℚ) := by
      have h' := hVm
      rw [hSz, sub_zero, mul_one, hVval] at h'
      field_simp at h'
      exact_mod_cast h'.symm
    simp only [pyint_of_nonneg (by positivity : (0:ℚ) ≤ V * 255)]
    rw [hV255, Int.floor_intCast]
    refine ⟨by simp only [max_self], ?_⟩
    simp only [min_self]
    exact_mod_cast hmM.symm
  · have hS0 : 0 < S := lt_of_le_of_ne hSmem.1 (Ne.symm hSz)
    rw [hsv_to_rgb_def, if_neg hSz]
    set H2 := mod1 (H + shift) with hH2
    have hpy : pyint (H2 * 6) = ⌊H2 * 6⌋ := by
      refine pyint_of_nonneg ?_
      have := mod1_nonneg (H + shift)
      rw [← hH2] at this
      positivity
    rw [hpy]
    set f := H2 * 6 - (⌊H2 * 6⌋ : ℚ) with hf
    have hf0 : 0 ≤ f := by
      rw [hf]; exact sub_nonneg.2 (Int.floor_le _)
    have hf1 : f < 1 := by
      rw [hf]
      have := Int.lt_floor_add_one (H2 * 6)
      linarith
    obtain ⟨hmax, hmin⟩ := sector_minmax (⌊H2 * 6⌋ % 6) f S V hf0 hf1 hS0.le hSmem.2 hV0
    set T := sectorTriple (⌊H2 * 6⌋ % 6) f S V with hT
    have hpmin : 0 ≤ V * (1 - S) := by rw [hVm]; positivity
    have hcomp1 : 0 ≤ T.1 := by
      have h1 : V * (1 - S) ≤ T.1 := hmin ▸ min_le_left _ _
      linarith
    have hcomp2 : 0 ≤ T.2.1 := by
      have h1 : V * (1 - S) ≤ T.2.1 := hmin ▸ (min_le_right _ _).trans (min_le_left _ _)
      linarith
    have hcomp3 : 0 ≤ T.2.2 := by
      have h1 : V * (1 - S) ≤ T.2.2 := hmin ▸ (min_le_right _ _).trans (min_le_right _ _)
      linarith
    simp only [pyint_of_nonneg (by positivity : (0:ℚ) ≤ T.1 * 255),
      pyint_of_nonneg (by positivity : (0:ℚ) ≤ T.2.1 * 255),
      pyint_of_nonneg (by positivity : (0:ℚ) ≤ T.2.2 * 255)]
    constructor
    · rw [← Int.floor_mono.map_max, ← Int.floor_mono.map_max,
        ← max_mul_of_nonneg _ _ (by norm_num : (0:ℚ) ≤ 255),
        ← max_mul_of_nonneg _ _ (by norm_num : (0:ℚ) ≤ 255),
        hmax, hVval, div_mul_cancel₀ _ (by norm_num : (255:ℚ) ≠ 0),
        Int.floor_intCast]
    · rw [← Int.floor_mono.map_min, ← Int.floor_mono.map_min,
        ← min_mul_of_nonneg _ _ (by norm_num : (0:ℚ) ≤ 255),
        ← min_mul_of_nonneg _ _ (by norm_num : (0:ℚ) ≤ 255),
        hmin, hVm, div_mul_cancel₀ _ (by norm_num : (255:ℚ) ≠ 0),
        Int.floor_intCast]

lemma rgbHue_r_max {r g b : ℚ} (h : r = max r (max g b)) :
    rgbHue r g b =
      (max r (max g b) - b) / (max r (max g b) - min r (min g b)) -
        (max r (max g b) - g) / (max r (max g b) - min r (min g b)) := by
  simp only [rgbHue]
  rw [if_pos h]

lemma rgbHue_g_max {r g b : ℚ} (hr : ¬ r = max r (max g b)) (hg : g = max r (max g b)) :
    rgbHue r g b =
      2 + (max r (max g b) - r) / (max r (max g b) - min r (min g b)) -
        (max r (max g b) - b) / (max r (max g b) - min r (min g b)) := by
  simp only [rgbHue]
  rw [if_neg hr, if_pos hg]

lemma rgbHue_b_max {r g b : ℚ} (hr : ¬ r = max r (max g b)) (hg : ¬ g = max r (max g b)) :
    rgbHue r g b =
      4 + (max r (max g b) - g) / (max r (max g b) - min r (min g b)) -
        (max r (max g b) - r) / (max r (max g b) - min r (min g b)) := by
  simp only [rgbHue]
  rw [if_neg hr, if_neg hg]

lemma sector_rgb_to_hsv (k : ℤ) (hk0 : 0 ≤ k) (hk5 : k < 6) (f s v : ℚ)
    (hf0 : 0 ≤ f) (hf1 : f < 1) (hs0 : 0 < s) (_hs1 : s ≤ 1) (hv : 0 < v) :
    rgb_to_hsv (sectorTriple k f s v).1 (sectorTriple k f s v).2.1
      (sectorTriple k f s v).2.2 = (((k : ℚ) + f) / 6, s, v) := by
  have hvs : 0 < v * s := mul_pos hv hs0
  have hp_le_q : v * (1 - s) ≤ v * (1 - s * f) := by nlinarith
  have hp_le_t : v * (1 - s) ≤ v * (1 - s * (1 - f)) := by nlinarith
  have hq_le_v : v * (1 - s * f) ≤ v := by nlinarith
  have ht_le_v : v * (1 - s * (1 - f)) ≤ v := by nlinarith
  have hp_lt_v : v * (1 - s) < v := by nlinarith
  have ht_lt_v : v * (1 - s * (1 - f)) < v := by nlinarith
  have e1 : v - v * (1 - s) = v * s := by ring
  have e2 : v - v * (1 - s * (1 - f)) = v * s * (1 - f) := by ring
  have e2q : v - v * (1 - s * f) = v * s * f := by ring
  interval_cases k
  · -- sector 0: (v, t, p)
    simp only [sectorTriple]
    norm_num
    rw [rgb_to_hsv_def]
    have hmax : max v (max (v * (1 - s * (1 - f))) (v * (1 - s))) = v := by
      rw [max_eq_left hp_le_t, max_eq_left ht_le_v]
    have hmin : min v (min (v * (1 - s * (1 - f))) (v * (1 - s))) = v * (1 - s) := by
      rw [min_eq_right hp_le_t, min_eq_right hp_lt_v.le]
    rw [hmax, hmin, if_neg (ne_of_lt hp_lt_v)]
    rw [rgbHue_r_max hmax.symm, hmax, hmin]
    rw [e1, e2, div_self (ne_of_gt hvs), mul_div_cancel_left₀ _ (ne_of_gt hvs)]
    have e3 : mod1 ((1 - (1 - f)) / 6) = f / 6 := by
      have e4 : (1 - (1 - f)) / 6 = f / 6 := by ring
      rw [e4, mod1_eq_self (by positivity) (by linarith)]
    rw [e3, mul_div_cancel_left₀ _ hv.ne']
  · -- sector 1: (q, v, p)
    by_cases hf : f = 0
    · subst hf
      simp only [sectorTriple]
      norm_num
      rw [rgb_to_hsv_def]
      have hmax : max v (max v (v * (1 - s))) = v := by
        rw [max_eq_left hp_lt_v.le, max_self]
      have hmin : min v (min v (v * (1 - s))) = v * (1 - s) := by
        rw [min_eq_right hp_lt_v.le, min_eq_right hp_lt_v.le]
      rw [hmax, hmin, if_neg (ne_of_lt hp_lt_v)]
      rw [rgbHue_r_max hmax.symm, hmax, hmin]
      rw [e1, div_self (ne_of_gt hvs), sub_self, zero_div]
      have e3 : mod1 ((1 - 0) / 6) = 1 / 6 := by
        rw [mod1_eq_self (by norm_num) (by norm_num)]
        norm_num
      rw [e3, mul_div_cancel_left₀ _ hv.ne']
    · have hq_lt_v : v * (1 - s * f) < v := by
        have hfpos : 0 < f := lt_of_le_of_ne hf0 (Ne.symm hf)
        nlinarith
      simp only [sectorTriple]
      norm_num
      rw [rgb_to_hsv_def]
      have hmax : max (v * (1 - s * f)) (max v (v * (1 - s))) = v := by
        rw [max_eq_left hp_lt_v.le, max_eq_right hq_le_v]
      have hmin : min (v * (1 - s * f)) (min v (v * (1 - s))) = v * (1 - s) := by
        rw [min_eq_right hp_lt_v.le, min_eq_right hp_le_q]
      rw [hmax, hmin, if_neg (ne_of_lt hp_lt_v)]
      rw [rgbHue_g_max (by rw [hmax]; exact hq_lt_v.ne) (by rw [hmax]), hmax, hmin]
      rw [e1, e2q, div_self (ne_of_gt hvs), mul_div_cancel_left₀ _ (ne_of_gt hvs)]
      have e3 : mod1 ((2 + f - 1) / 6) = (1 + f) / 6 := by
        have e4 : (2 + f - 1) / 6 = (1 + f) / 6 := by ring
        rw [e4, mod1_eq_self (by positivity) (by linarith)]
      rw [e3, mul_div_cancel_left₀ _ hv.ne']
  · -- sector 2: (p, v, t)
    simp only [sectorTriple]
    norm_num
    rw [rgb_to_hsv_def]
    have hmax : max (v * (1 - s)) (max v (v * (1 - s * (1 - f)))) = v := by
      rw [max_eq_left ht_le_v, max_eq_right hp_lt_v.le]
    have hmin : min (v * (1 - s)) (min v (v * (1 - s * (1 - f)))) = v * (1 - s) := by
      rw [min_eq_right ht_le_v, min_eq_left hp_le_t]
    rw [hmax, hmin, if_neg (ne_of_lt hp_lt_v)]
    rw [rgbHue_g_max (by rw [hmax]; exact hp_lt_v.ne) (by rw [hmax]), hmax, hmin]
    rw [e1, e2, div_self (ne_of_gt hvs), mul_div_cancel_left₀ _ (ne_of_gt hvs)]
    have e3 : mod1 ((2 + 1 - (1 - f)) / 6) = (2 + f) / 6 := by
      have e4 : (2 + 1 - (1 - f)) / 6 = (2 + f) / 6 := by ring
      rw [e4, mod1_eq_self (by positivity) (by linarith)]
    rw [e3, mul_div_cancel_left₀ _ hv.ne']
  · -- sector 3: (p, q, v)
    by_cases hf : f = 0
    · subst hf
      simp only [sectorTriple]
      norm_num
      rw [rgb_to_hsv_def]
      have hmax : max (v * (1 - s)) (max v v) = v := by
        rw [max_self, max_eq_right hp_lt_v.le]
      have hmin : min (v * (1 - s)) (min v v) = v * (1 - s) := by
        rw [min_self, min_eq_left hp_lt_v.le]
      rw [hmax, hmin, if_neg (ne_of_lt hp_lt_v)]
      rw [rgbHue_g_max (by rw [hmax]; exact hp_lt_v.ne) (by rw [hmax]), hmax, hmin]
      rw [e1, div_self (ne_of_gt hvs), sub_self, zero_div]
      have e3 : mod1 ((2 + 1 - 0) / 6) = 3 / 6 := by
        rw [mod1_eq_self (by norm_num) (by norm_num)]
        norm_num
      rw [e3, mul_div_cancel_left₀ _ hv.ne']
      norm_num
    · have hq_lt_v : v * (1 - s * f) < v := by
        have hfpos : 0 < f := lt_of_le_of_ne hf0 (Ne.symm hf)
        nlinarith
      simp only [sectorTriple]
      norm_num
      rw [rgb_to_hsv_def]
      have hmax : max (v * (1 - s)) (max (v * (1 - s * f)) v) = v := by
        rw [max_eq_right hq_le_v, max_eq_right hp_lt_v.le]
      have hmin : min (v * (1 - s)) (min (v * (1 - s * f)) v) = v * (1 - s) := by
        rw [min_eq_left hq_le_v, min_eq_left hp_le_q]
      rw [hmax, hmin, if_neg (ne_of_lt hp_lt_v)]
      rw [rgbHue_b_max (by rw [hmax]; exact hp_lt_v.ne) (by rw [hmax]; exact hq_lt_v.ne),
        hmax, hmin]
      rw [e1, e2q, div_self (ne_of_gt hvs), mul_div_cancel_left₀ _ (ne_of_gt hvs)]
      have e3 : mod1 ((4 + f - 1) / 6) = (3 + f) / 6 := by
        have e4 : (4 + f - 1) / 6 = (3 + f) / 6 := by ring
        rw [e4, mod1_eq_self (by positivity) (by linarith)]
      rw [e3, mul_div_cancel_left₀ _ hv.ne']
  · -- sector 4: (t, p, v)
    simp only [sectorTriple]
    norm_num
    rw [rgb_to_hsv_def]
    have hmax : max (v * (1 - s * (1 - f))) (max (v * (1 - s)) v) = v := by
      rw [max_eq_right hp_lt_v.le, max_eq_right ht_le_v]
    have hmin : min (v * (1 - s * (1 - f))) (min (v * (1 - s)) v) = v * (1 - s) := by
      rw [min_eq_left hp_lt_v.le, min_eq_right hp_le_t]
    rw [hmax, hmin, if_neg (ne_of_lt hp_lt_v)]
    rw [rgbHue_b_max (by rw [hmax]; exact ht_lt_v.ne) (by rw [hmax]; exact hp_lt_v.ne),
      hmax, hmin]
    rw [e1, e2, div_self (ne_of_gt hvs), mul_div_cancel_left₀ _ (ne_of_gt hvs)]
    have e3 : mod1 ((4 + 1 - (1 - f)) / 6) = (4 + f) / 6 := by
      have e4 : (4 + 1 - (1 - f)) / 6 = (4 + f) / 6 := by ring
      rw [e4, mod1_eq_self (by positivity) (by linarith)]
    rw [e3, mul_div_cancel_left₀ _ hv.ne']
  · -- sector 5: (v, p, q)
    simp only [sectorTriple]
    norm_num
    rw [rgb_to_hsv_def]
    have hmax : max v (max (v * (1 - s)) (v * (1 - s * f))) = v := by
      rw [max_eq_right hp_le_q, max_eq_left hq_le_v]
    have hmin : min v (min (v * (1 - s)) (v * (1 - s * f))) = v * (1 - s) := by
      rw [min_eq_left hp_le_q, min_eq_right hp_lt_v.le]
    rw [hmax, hmin, if_neg (ne_of_lt hp_lt_v)]
    rw [rgbHue_r_max hmax.symm, hmax, hmin]
    rw [e1, e2q, div_self (ne_of_gt hvs), mul_div_cancel_left₀ _ (ne_of_gt hvs)]
    have e3 : mod1 ((f - 1) / 6) = (5 + f) / 6 := by
      rw [mod1_of_neg (by linarith) (by linarith)]
      ring
    rw [e3, mul_div_cancel_left₀ _ hv.ne']

lemma sectorTriple_eval0 (f s v : ℚ) :
    sectorTriple 0 f s v = (v, v * (1 - s * (1 - f)), v * (1 - s)) := rfl

lemma sectorTriple_eval1 (f s v : ℚ) :
    sectorTriple 1 f s v = (v * (1 - s * f), v, v * (1 - s)) := rfl

lemma sectorTriple_eval2 (f s v : ℚ) :
    sectorTriple 2 f s v = (v * (1 - s), v, v * (1 - s * (1 - f))) := rfl

lemma sectorTriple_eval3 (f s v : ℚ) :
    sectorTriple 3 f s v = (v * (1 - s), v * (1 - s * f), v) := rfl

lemma sectorTriple_eval4 (f s v : ℚ) :
    sectorTriple 4 f s v = (v * (1 - s * (1 - f)), v * (1 - s), v) := rfl

lemma sectorTriple_eval5 (f s v : ℚ) :
    sectorTriple 5 f s v = (v, v * (1 - s), v * (1 - s * f)) := rfl

lemma hsv_then_rgb (h s v : ℚ) (h0 : 0 ≤ h) (h1 : h < 1)
    (hs0 : 0 < s) (hs1 : s ≤ 1) (hv : 0 < v) :
    rgb_to_hsv (hsv_to_rgb h s v).1 (hsv_to_rgb h s v).2.1 (hsv_to_rgb h s v).2.2 =
      (h, s, v) := by
  rw [hsv_to_rgb_def, if_neg hs0.ne']
  have hpy : pyint (h * 6) = ⌊h * 6⌋ := pyint_of_nonneg (by positivity)
  rw [hpy]
  have hk0 : 0 ≤ ⌊h * 6⌋ := Int.floor_nonneg.2 (by positivity)
  have hk5 : ⌊h * 6⌋ < 6 := by
    have h6 : h * 6 < 6 := by linarith
    exact Int.floor_lt.2 (by exact_mod_cast h6)
  have hmod : ⌊h * 6⌋ % 6 = ⌊h * 6⌋ := Int.emod_eq_of_lt hk0 hk5
  have hf0 : 0 ≤ h * 6 - (⌊h * 6⌋ : ℚ) := sub_nonneg.2 (Int.floor_le _)
  have hf1 : h * 6 - (⌊h * 6⌋ : ℚ) < 1 := by
    have hl := Int.lt_floor_add_one (h * 6)
    linarith
  rw [hmod, sector_rgb_to_hsv _ hk0 hk5 _ s v hf0 hf1 hs0 hs1 hv]
  have e : ((⌊h * 6⌋ : ℚ) + (h * 6 - (⌊h * 6⌋ : ℚ))) / 6 = h := by ring
  rw [e]


/-- `hsv_to_rgb` inverts `rgb_to_hsv` exactly, for any nonnegative
channels.  This is the identity behind `adjust_hue` being the identity
at shift 0 (and at any integral shift). -/
lemma rgb_then_hsv (r g b : ℚ) (hr : 0 ≤ r) (hg : 0 ≤ g) (hb : 0 ≤ b) :
    hsv_to_rgb (rgb_to_hsv r g b).1 (rgb_to_hsv r g b).2.1 (rgb_to_hsv r g b).2.2 =
      (r, g, b) := by
  by_cases hgrey : min r (min g b) = max r (max g b)
  · -- grey input: (h, s, v) = (0, 0, maxc) and the s = 0 branch returns (v, v, v)
    have hr' : r = max r (max g b) :=
      le_antisymm (le_max_left _ _) (hgrey ▸ min_le_left _ _)
    have hg' : g = max r (max g b) :=
      le_antisymm ((le_max_left g b).trans (le_max_right r _))
        (hgrey ▸ (min_le_right r _).trans (min_le_left g b))
    have hb' : b = max r (max g b) :=
      le_antisymm ((le_max_right g b).trans (le_max_right r _))
        (hgrey ▸ (min_le_right r _).trans (min_le_right g b))
    simp only [rgb_to_hsv_def, if_pos hgrey]
    rw [hsv_to_rgb_def, if_pos rfl]
    exact Prod.ext hr'.symm (Prod.ext hg'.symm hb'.symm)
  · by_cases hrM : r = max r (max g b)
    · -- red channel attains the maximum
      have hM0 : 0 < max r (max g b) := max₃_pos_of_ne hr hg hb hgrey
      have hmM : min r (min g b) < max r (max g b) :=
        lt_of_le_of_ne (min_le_max₃ r g b) hgrey
      have hr0 : 0 < r := hrM ▸ hM0
      have hgr : g ≤ r := by
        rw [hrM]; exact (le_max_left g b).trans (le_max_right r (max g b))
      have hbr : b ≤ r := by
        rw [hrM]; exact (le_max_right g b).trans (le_max_right r (max g b))
      by_cases hgb : b ≤ g
      · have hm_eq : min r (min g b) = b := by
          rw [min_eq_right hgb]; exact min_eq_right hbr
        have hC0 : 0 < r - b := by
          have h' := hmM; rw [hm_eq, ← hrM] at h'; linarith
        have hCne : r - b ≠ 0 := hC0.ne'
        have hSne : (r - b) / r ≠ 0 := (div_pos hC0 hr0).ne'
        by_cases hge : g = r
        · subst hge
          have hHue : rgbHue g g b = 1 := by
            rw [rgbHue_r_max hrM, ← hrM, hm_eq]
            field_simp
          simp only [rgb_to_hsv_def, if_neg hgrey]
          rw [← hrM, hm_eq, hHue, hsv_to_rgb_def, if_neg hSne]
          rw [mod1_eq_self (by norm_num) (by norm_num)]
          have e6 : (1 : ℚ) / 6 * 6 = 1 := by norm_num
          rw [e6]
          have hp1 : pyint (1 : ℚ) = 1 := by
            rw [pyint_of_nonneg (by norm_num)]; exact Int.floor_one
          rw [hp1, (by decide : ((1:ℤ) % 6) = 1)]
          simp only [Int.cast_one]
          rw [sectorTriple_eval1]
          refine Prod.ext ?_ (Prod.ext rfl ?_)
          · show g * (1 - (g - b) / g * (1 - 1)) = g
            field_simp
          · show g * (1 - (g - b) / g) = b
            field_simp
        · have hglt : g < r := lt_of_le_of_ne hgr hge
          have hHue : rgbHue r g b = (g - b) / (r - b) := by
            rw [rgbHue_r_max hrM, ← hrM, hm_eq]
            field_simp
          have hY0 : 0 ≤ (g - b) / (r - b) := div_nonneg (by linarith) hC0.le
          have hY1 : (g - b) / (r - b) < 1 := (div_lt_one hC0).2 (by linarith)
          simp only [rgb_to_hsv_def, if_neg hgrey]
          rw [← hrM, hm_eq, hHue, hsv_to_rgb_def, if_neg hSne]
          rw [mod1_eq_self (by positivity) (by linarith)]
          have e6 : (g - b) / (r - b) / 6 * 6 = (g - b) / (r - b) := by ring
          rw [e6, pyint_of_nonneg hY0]
          have hfl : ⌊(g - b) / (r - b)⌋ = 0 := Int.floor_eq_zero_iff.2 ⟨hY0, hY1⟩
          rw [hfl, (by decide : ((0:ℤ) % 6) = 0)]
          simp only [Int.cast_zero, sub_zero]
          rw [sectorTriple_eval0]
          refine Prod.ext rfl (Prod.ext ?_ ?_)
          · show r * (1 - (r - b) / r * (1 - (g - b) / (r - b))) = g
            field_simp
            ring
          · show r * (1 - (r - b) / r) = b
            field_simp
      · have hbg : g < b := lt_of_not_le hgb
        have hm_eq : min r (min g b) = g := by
          rw [min_eq_left hbg.le]; exact min_eq_right hgr
        have hC0 : 0 < r - g := by
          have h' := hmM; rw [hm_eq, ← hrM] at h'; linarith
        have hCne : r - g ≠ 0 := hC0.ne'
        have hSne : (r - g) / r ≠ 0 := (div_pos hC0 hr0).ne'
        have hHue : rgbHue r g b = (g - b) / (r - g) := by
          rw [rgbHue_r_max hrM, ← hrM, hm_eq]
          field_simp
        have hY0 : -1 ≤ (g - b) / (r - g) := by
          rw [le_div_iff₀ hC0]
          linarith
        have hY1 : (g - b) / (r - g) < 0 := div_neg_of_neg_of_pos (by linarith) hC0
        simp only [rgb_to_hsv_def, if_neg hgrey]
        rw [← hrM, hm_eq, hHue, hsv_to_rgb_def, if_neg hSne]
        rw [mod1_of_neg (by linarith) (by linarith)]
        have e6 : ((g - b) / (r - g) / 6 + 1) * 6 = (g - b) / (r - g) + 6 := by ring
        rw [e6]
        rw [pyint_of_nonneg (by linarith)]
        have hfl : ⌊(g - b) / (r - g) + 6⌋ = 5 := by
          rw [Int.floor_eq_iff]
          constructor
          · push_cast; linarith
          · push_cast; linarith
        rw [hfl, (by decide : ((5:ℤ) % 6) = 5)]
        have e7 : (g - b) / (r - g) + 6 - ((5:ℤ) : ℚ) = (g - b) / (r - g) + 1 := by
          push_cast; ring
        rw [e7, sectorTriple_eval5]
        refine Prod.ext rfl (Prod.ext ?_ ?_)
        · show r * (1 - (r - g) / r) = g
          field_simp
        · show r * (1 - (r - g) / r * ((g - b) / (r - g) + 1)) = b
          field_simp
          ring
    · by_cases hgM : g = max r (max g b)
      · -- green channel attains the maximum (red does not)
        have hM0 : 0 < max r (max g b) := max₃_pos_of_ne hr hg hb hgrey
        have hmM : min r (min g b) < max r (max g b) :=
          lt_of_le_of_ne (min_le_max₃ r g b) hgrey
        have hg0 : 0 < g := hgM ▸ hM0
        have hrle : r ≤ g := by rw [hgM]; exact le_max_left _ _
        have hrg : r < g := lt_of_le_of_ne hrle (fun h => hrM (h.trans hgM))
        have hbg2 : b ≤ g := by
          rw [hgM]; exact (le_max_right g b).trans (le_max_right r (max g b))
        by_cases hrb : r ≤ b
        · have hm_eq : min r (min g b) = r := by
            rw [min_eq_right hbg2]; exact min_eq_left hrb
          have hC0 : 0 < g - r := by
            have h' := hmM; rw [hm_eq, ← hgM] at h'; linarith
          have hCne : g - r ≠ 0 := hC0.ne'
          have hSne : (g - r) / g ≠ 0 := (div_pos hC0 hg0).ne'
          by_cases hbe : b = g
          · -- hue exactly 3, sector 3 with f = 0
            subst hbe
            have hHue : rgbHue r b b = 3 := by
              rw [rgbHue_g_max hrM hgM, ← hgM, hm_eq]
              field_simp
              ring
            simp only [rgb_to_hsv_def, if_neg hgrey]
            rw [← hgM, hm_eq, hHue, hsv_to_rgb_def, if_neg hSne]
            rw [mod1_eq_self (by norm_num) (by norm_num)]
            have e6 : (3 : ℚ) / 6 * 6 = 3 := by norm_num
            rw [e6]
            have hp3 : pyint (3 : ℚ) = 3 := by
              rw [pyint_of_nonneg (by norm_num : (0:ℚ) ≤ 3)]
              norm_num
            rw [hp3, (by decide : ((3:ℤ) % 6) = 3)]
            have e7 : (3 : ℚ) - ((3:ℤ) : ℚ) = 0 := by push_cast; ring
            rw [e7, sectorTriple_eval3]
            refine Prod.ext ?_ (Prod.ext ?_ rfl)
            · show b * (1 - (b - r) / b) = r
              field_simp
            · show b * (1 - (b - r) / b * 0) = b
              norm_num
          · -- sector 2 with f = (b - r)/(g - r)
            have hblt : b < g := lt_of_le_of_ne hbg2 hbe
            have hHue : rgbHue r g b = 2 + (b - r) / (g - r) := by
              rw [rgbHue_g_max hrM hgM, ← hgM, hm_eq]
              field_simp
              ring
            have hY0 : 0 ≤ (b - r) / (g - r) := div_nonneg (by linarith) hC0.le
            have hY1 : (b - r) / (g - r) < 1 := (div_lt_one hC0).2 (by linarith)
            simp only [rgb_to_hsv_def, if_neg hgrey]
            rw [← hgM, hm_eq, hHue, hsv_to_rgb_def, if_neg hSne]
            rw [mod1_eq_self (by positivity) (by linarith)]
            have e6 : (2 + (b - r) / (g - r)) / 6 * 6 = 2 + (b - r) / (g - r) := by ring
            rw [e6, pyint_of_nonneg (by linarith)]
            have hfl : ⌊2 + (b - r) / (g - r)⌋ = 2 := by
              rw [Int.floor_eq_iff]
              constructor
              · push_cast; linarith
              · push_cast; linarith
            rw [hfl, (by decide : ((2:ℤ) % 6) = 2)]
            have e7 : 2 + (b - r) / (g - r) - ((2:ℤ) : ℚ) = (b - r) / (g - r) := by
              push_cast; ring
            rw [e7, sectorTriple_eval2]
            refine Prod.ext ?_ (Prod.ext rfl ?_)
            · show g * (1 - (g - r) / g) = r
              field_simp
            · show g * (1 - (g - r) / g * (1 - (b - r) / (g - r))) = b
              field_simp
              ring
        · -- b < r : sector 1 with f = (g - r)/(g - b)
          have hbr : b < r := lt_of_not_le hrb
          have hm_eq : min r (min g b) = b := by
            rw [min_eq_right hbg2]; exact min_eq_right hbr.le
          have hC0 : 0 < g - b := by
            have h' := hmM; rw [hm_eq, ← hgM] at h'; linarith
          have hCne : g - b ≠ 0 := hC0.ne'
          have hSne : (g - b) / g ≠ 0 := (div_pos hC0 hg0).ne'
          have hHue : rgbHue r g b = 1 + (g - r) / (g - b) := by
            rw [rgbHue_g_max hrM hgM, ← hgM, hm_eq]
            field_simp
            ring
          have hY0 : 0 < (g - r) / (g - b) := div_pos (by linarith) hC0
          have hY1 : (g - r) / (g - b) < 1 := (div_lt_one hC0).2 (by linarith)
          simp only [rgb_to_hsv_def, if_neg hgrey]
          rw [← hgM, hm_eq, hHue, hsv_to_rgb_def, if_neg hSne]
          rw [mod1_eq_self (by positivity) (by linarith)]
          have e6 : (1 + (g - r) / (g - b)) / 6 * 6 = 1 + (g - r) / (g - b) := by ring
          rw [e6, pyint_of_nonneg (by linarith)]
          have hfl : ⌊1 + (g - r) / (g - b)⌋ = 1 := by
            rw [Int.floor_eq_iff]
            constructor
            · push_cast; linarith
            · push_cast; linarith
          rw [hfl, (by decide : ((1:ℤ) % 6) = 1)]
          have e7 : 1 + (g - r) / (g - b) - ((1:ℤ) : ℚ) = (g - r) / (g - b) := by
            push_cast; ring
          rw [e7, sectorTriple_eval1]
          refine Prod.ext ?_ (Prod.ext rfl ?_)
          · show g * (1 - (g - b) / g * ((g - r) / (g - b))) = r
            field_simp
            ring
          · show g * (1 - (g - b) / g) = b
            field_simp
      · -- blue channel attains the maximum (red and green do not)
        have hM0 : 0 < max r (max g b) := max₃_pos_of_ne hr hg hb hgrey
        have hmM : min r (min g b) < max r (max g b) :=
          lt_of_le_of_ne (min_le_max₃ r g b) hgrey
        have hbM : b = max r (max g b) := by
          rcases max_choice r (max g b) with h | h
          · exact absurd h.symm hrM
          · rcases max_choice g b with h2 | h2
            · exact absurd (h.trans h2).symm hgM
            · exact (h.trans h2).symm
        have hb0 : 0 < b := hbM ▸ hM0
        have hrle : r ≤ b := by rw [hbM]; exact le_max_left _ _
        have hgle : g ≤ b := by
          rw [hbM]; exact (le_max_left g b).trans (le_max_right r (max g b))
        have hrb : r < b := lt_of_le_of_ne hrle (fun h => hrM (h.trans hbM))
        have hgb3 : g < b := lt_of_le_of_ne hgle (fun h => hgM (h.trans hbM))
        by_cases hgr : g ≤ r
        · -- sector 4 with f = (r - g)/(b - g)
          have hm_eq : min r (min g b) = g := by
            rw [min_eq_left hgb3.le]; exact min_eq_right hgr
          have hC0 : 0 < b - g := by
            have h' := hmM; rw [hm_eq, ← hbM] at h'; linarith
          have hCne : b - g ≠ 0 := hC0.ne'
          have hSne : (b - g) / b ≠ 0 := (div_pos hC0 hb0).ne'
          have hHue : rgbHue r g b = 4 + (r - g) / (b - g) := by
            rw [rgbHue_b_max hrM hgM, ← hbM, hm_eq]
            field_simp
            ring
          have hY0 : 0 ≤ (r - g) / (b - g) := div_nonneg (by linarith) hC0.le
          have hY1 : (r - g) / (b - g) < 1 := (div_lt_one hC0).2 (by linarith)
          simp only [rgb_to_hsv_def, if_neg hgrey]
          rw [← hbM, hm_eq, hHue, hsv_to_rgb_def, if_neg hSne]
          rw [mod1_eq_self (by positivity) (by linarith)]
          have e6 : (4 + (r - g) / (b - g)) / 6 * 6 = 4 + (r - g) / (b - g) := by ring
          rw [e6, pyint_of_nonneg (by linarith)]
          have hfl : ⌊4 + (r - g) / (b - g)⌋ = 4 := by
            rw [Int.floor_eq_iff]
            constructor
            · push_cast; linarith
            · push_cast; linarith
          rw [hfl, (by decide : ((4:ℤ) % 6) = 4)]
          have e7 : 4 + (r - g) / (b - g) - ((4:ℤ) : ℚ) = (r - g) / (b - g) := by
            push_cast; ring
          rw [e7, sectorTriple_eval4]
          refine Prod.ext ?_ (Prod.ext ?_ rfl)
          · show b * (1 - (b - g) / b * (1 - (r - g) / (b - g))) = r
            field_simp
            ring
          · show b * (1 - (b - g) / b) = g
            field_simp
        · -- r < g : sector 3 with f = (b - g)/(b - r)
          have hrg : r < g := lt_of_not_le hgr
          have hm_eq : min r (min g b) = r := by
            rw [min_eq_left hgb3.le]; exact min_eq_left hrg.le
          have hC0 : 0 < b - r := by
            have h' := hmM; rw [hm_eq, ← hbM] at h'; linarith
          have hCne : b - r ≠ 0 := hC0.ne'
          have hSne : (b - r) / b ≠ 0 := (div_pos hC0 hb0).ne'
          have hHue : rgbHue r g b = 3 + (b - g) / (b - r) := by
            rw [rgbHue_b_max hrM hgM, ← hbM, hm_eq]
            field_simp
            ring
          have hY0 : 0 < (b - g) / (b - r) := div_pos (by linarith) hC0
          have hY1 : (b - g) / (b - r) < 1 := (div_lt_one hC0).2 (by linarith)
          simp only [rgb_to_hsv_def, if_neg hgrey]
          rw [← hbM, hm_eq, hHue, hsv_to_rgb_def, if_neg hSne]
          rw [mod1_eq_self (by positivity) (by linarith)]
          have e6 : (3 + (b - g) / (b - r)) / 6 * 6 = 3 + (b - g) / (b - r) := by ring
          rw [e6, pyint_of_nonneg (by linarith)]
          have hfl : ⌊3 + (b - g) / (b - r)⌋ = 3 := by
            rw [Int.floor_eq_iff]
            constructor
            · push_cast; linarith
            · push_cast; linarith
          rw [hfl, (by decide : ((3:ℤ) % 6) = 3)]
          have e7 : 3 + (b - g) / (b - r) - ((3:ℤ) : ℚ) = (b - g) / (b - r) := by
            push_cast; ring
          rw [e7, sectorTriple_eval3]
          refine Prod.ext ?_ (Prod.ext ?_ rfl)
          · show b * (1 - (b - r) / b) = r
            field_simp
          · show b * (1 - (b - r) / b * ((b - g) / (b - r))) = g
            field_simp
            ring

lemma rgb_to_hsv_sv_eq_of_minmax (r g b r' g' b' : ℚ)
    (hmax : max r (max g b) = max r' (max g' b'))
    (hmin : min r (min g b) = min r' (min g' b')) :
    (rgb_to_hsv r g b).2.1 = (rgb_to_hsv r' g' b').2.1 ∧
    (rgb_to_hsv r g b).2.2 = (rgb_to_hsv r' g' b').2.2 := by
  rw [rgb_to_hsv_def, rgb_to_hsv_def, hmax, hmin]
  by_cases h : min r' (min g' b') = max r' (max g' b')
  · rw [if_pos h, if_pos h]
    exact ⟨rfl, rfl⟩
  · rw [if_neg h, if_neg h]
    exact ⟨rfl, rfl⟩

lemma adjust_hue_shift_add_int (r g b : ℤ) (s : ℚ) (k : ℤ) :
    adjust_hue r g b (s + k) = adjust_hue r g b s := by
  simp only [adjust_hue]
  rw [← add_assoc, mod1_add_int]

lemma adjust_hue_id (r g b : ℤ) (hr0 : 0 ≤ r) (hg0 : 0 ≤ g) (hb0 : 0 ≤ b) :
    adjust_hue r g b 0 = (r, g, b) ∧ adjust_hue r g b 1 = (r, g, b) := by
  have h0r : (0:ℚ) ≤ (r:ℚ)/255 := by positivity
  have h0g : (0:ℚ) ≤ (g:ℚ)/255 := by positivity
  have h0b : (0:ℚ) ≤ (b:ℚ)/255 := by positivity
  have hHmem := rgb_to_hsv_hue_mem ((r:ℚ)/255) ((g:ℚ)/255) ((b:ℚ)/255)
  have hm0 : mod1 ((rgb_to_hsv ((r:ℚ)/255) ((g:ℚ)/255) ((b:ℚ)/255)).1 + 0) =
      (rgb_to_hsv ((r:ℚ)/255) ((g:ℚ)/255) ((b:ℚ)/255)).1 := by
    rw [add_zero]
    exact mod1_eq_self hHmem.1 hHmem.2
  have hm1 : mod1 ((rgb_to_hsv ((r:ℚ)/255) ((g:ℚ)/255) ((b:ℚ)/255)).1 + 1) =
      (rgb_to_hsv ((r:ℚ)/255) ((g:ℚ)/255) ((b:ℚ)/255)).1 := by
    have h' := mod1_add_int (rgb_to_hsv ((r:ℚ)/255) ((g:ℚ)/255) ((b:ℚ)/255)).1 1
    push_cast at h'
    rw [h']
    exact mod1_eq_self hHmem.1 hHmem.2
  constructor
  · simp only [adjust_hue]
    rw [hm0, rgb_then_hsv _ _ _ h0r h0g h0b]
    refine Prod.ext ?_ (Prod.ext ?_ ?_)
    · show pyint ((r:ℚ)/255 * 255) = r
      rw [div_mul_cancel₀ _ (by norm_num : (255:ℚ) ≠ 0)]
      exact pyint_intCast r
    · show pyint ((g:ℚ)/255 * 255) = g
      rw [div_mul_cancel₀ _ (by norm_num : (255:ℚ) ≠ 0)]
      exact pyint_intCast g
    · show pyint ((b:ℚ)/255 * 255) = b
      rw [div_mul_cancel₀ _ (by norm_num : (255:ℚ) ≠ 0)]
      exact pyint_intCast b
  · simp only [adjust_hue]
    rw [hm1, rgb_then_hsv _ _ _ h0r h0g h0b]
    refine Prod.ext ?_ (Prod.ext ?_ ?_)
    · show pyint ((r:ℚ)/255 * 255) = r
      rw [div_mul_cancel₀ _ (by norm_num : (255:ℚ) ≠ 0)]
      exact pyint_intCast r
    · show pyint ((g:ℚ)/255 * 255) = g
      rw [div_mul_cancel₀ _ (by norm_num : (255:ℚ) ≠ 0)]
      exact pyint_intCast g
    · show pyint ((b:ℚ)/255 * 255) = b
      rw [div_mul_cancel₀ _ (by norm_num : (255:ℚ) ≠ 0)]
      exact pyint_intCast b

lemma rgb_to_hsv_not_grey_of_sat_ne (r g b : ℚ)
    (hs : (rgb_to_hsv r g b).2.1 ≠ 0) :
    ¬ min r (min g b) = max r (max g b) := by
  intro h
  apply hs
  rw [rgb_to_hsv_def, if_pos h]

/-! ### Claim theorems -/

/-- C1: the `__main__` block creates the `icons` directory first and
then invokes the renderer exactly once for each index `i` from 1 to 20,
in increasing order, with label `i`, hue shift `i / 20.0` and output
path `icons/icon_<i>.ico`. -/
theorem batch_driver_schedule :
    main_effects =
      [ Effect.makedirs "icons" true,
        .render 1 ((1 : ℚ) / 20) "icons/icon_1.ico",
        .render 2 ((2 : ℚ) / 20) "icons/icon_2.ico",
        .render 3 ((3 : ℚ) / 20) "icons/icon_3.ico",
        .render 4 ((4 : ℚ) / 20) "icons/icon_4.ico",
        .render 5 ((5 : ℚ) / 20) "icons/icon_5.ico",
        .render 6 ((6 : ℚ) / 20) "icons/icon_6.ico",
        .render 7 ((7 : ℚ) / 20) "icons/icon_7.ico",
        .render 8 ((8 : ℚ) / 20) "icons/icon_8.ico",
        .render 9 ((9 : ℚ) / 20) "icons/icon_9.ico",
        .render 10 ((10 : ℚ) / 20) "icons/icon_10.ico",
        .render 11 ((11 : ℚ) / 20) "icons/icon_11.ico",
        .render 12 ((12 : ℚ) / 20) "icons/icon_12.ico",
        .render 13 ((13 : ℚ) / 20) "icons/icon_13.ico",
        .render 14 ((14 : ℚ) / 20) "icons/icon_14.ico",
        .render 15 ((15 : ℚ) / 20) "icons/icon_15.ico",
        .render 16 ((16 : ℚ) / 20) "icons/icon_16.ico",
        .render 17 ((17 : ℚ) / 20) "icons/icon_17.ico",
        .render 18 ((18 : ℚ) / 20) "icons/icon_18.ico",
        .render 19 ((19 : ℚ) / 20) "icons/icon_19.ico",
        .render 20 ((20 : ℚ) / 20) "icons/icon_20.ico" ] := by
  have hr : List.range 20 = [0, 1, 2, 3, 4, 5, 6, 7, 8, 9, 10, 11, 12, 13,
      14, 15, 16, 17, 18, 19] := rfl
  simp only [main_effects, hr, List.map_cons, List.map_nil, icons_dir,
    os_path_join, batch_shift]
  norm_num
  exact ⟨rfl, rfl, rfl, rfl, rfl, rfl, rfl, rfl, rfl, rfl, rfl, rfl, rfl,
    rfl, rfl, rfl, rfl, rfl, rfl, rfl⟩

/-- C2 (counterexample): the final loop iteration computes hue shift
`20 * (1/20) = 1.0`, which does not lie in the open interval `(0, 1)`
(nor in `[0, 1)`), refuting the claim as stated at `i = 20`. -/
theorem batch_shift_final_iteration_not_lt_one :
    batch_shift 20 = 1 ∧ ¬ (0 < batch_shift 20 ∧ batch_shift 20 < 1) := by
  norm_num [batch_shift]

/-- C2 (amended): for `i` in 1..20 the hue shift `i * (1/20)` is
strictly greater than the shift for `i - 1` and lies in the half-open
interval `(0, 1]`; it lies in `(0, 1)` only for `i ≤ 19`. -/
theorem batch_shift_strictly_increasing_in_unit_interval (i : ℤ)
    (h1 : 1 ≤ i) (h2 : i ≤ 20) :
    batch_shift (i - 1) < batch_shift i ∧ 0 < batch_shift i ∧
      batch_shift i ≤ 1 ∧ (i ≤ 19 → batch_shift i < 1) := by
  have c1 : (1 : ℚ) ≤ (i : ℚ) := by exact_mod_cast h1
  have c2 : (i : ℚ) ≤ 20 := by exact_mod_cast h2
  simp only [batch_shift]
  push_cast
  refine ⟨by linarith, by linarith, by linarith, fun h19 => ?_⟩
  have c3 : (i : ℚ) ≤ 19 := by exact_mod_cast h19
  linarith

/-- C2 (witness): the amended statement at `i = 20`. -/
theorem batch_shift_strictly_increasing_in_unit_interval_witness :
    batch_shift (20 - 1) < batch_shift 20 ∧ 0 < batch_shift 20 ∧
      batch_shift 20 ≤ 1 ∧ ((20:ℤ) ≤ 19 → batch_shift 20 < 1) :=
  batch_shift_strictly_increasing_in_unit_interval 20 (by norm_num) (by norm_num)

/-- C3: for every label, hue shift and font metric, the fifth draw call
fills the radius-50 inner disc (bounding box `(78, 78, 178, 178)` on the
256×256 canvas) with the constant base color `(66, 133, 244)` — the blue
channel never passes through `adjust_hue`, so the inner disc color is
identical across all generated icons. -/
theorem inner_disc_color_constant (n : ℤ) (s : ℚ)
    (tb : String → ℤ × ℤ × ℤ × ℤ) :
    (create_chrome_icon_draw_ops n s tb)[4]? =
      some (.ellipse (78, 78, 178, 178) (.rgb 66 133 244)) := rfl

/-- C4: `adjust_hue` preserves HSV saturation and value exactly (hence a
fortiori to within integer-rounding tolerance), and — whenever the input
color is chromatic (saturation nonzero) — the exact (pre-quantization)
color produced by the rotation has hue exactly `(h + shift) mod 1`, with
the same saturation and value. -/
theorem adjust_hue_preserves_saturation_value (r g b : ℤ) (shift : ℚ)
    (hr0 : 0 ≤ r) (_hr1 : r ≤ 255) (hg0 : 0 ≤ g) (_hg1 : g ≤ 255)
    (hb0 : 0 ≤ b) (_hb1 : b ≤ 255) :
    (outputHSV r g b shift).2.1 = (inputHSV r g b).2.1 ∧
    (outputHSV r g b shift).2.2 = (inputHSV r g b).2.2 ∧
    ((inputHSV r g b).2.1 ≠ 0 →
      hsvRoundtrip (mod1 ((inputHSV r g b).1 + shift)) (inputHSV r g b).2.1
          (inputHSV r g b).2.2 =
        (mod1 ((inputHSV r g b).1 + shift), (inputHSV r g b).2.1,
          (inputHSV r g b).2.2)) := by
  obtain ⟨hmax, hmin⟩ := adjust_hue_extremes r g b shift hr0 hg0 hb0
  have h0r : (0:ℚ) ≤ (r:ℚ)/255 := by positivity
  have h0g : (0:ℚ) ≤ (g:ℚ)/255 := by positivity
  have h0b : (0:ℚ) ≤ (b:ℚ)/255 := by positivity
  have hmax' : max (((adjust_hue r g b shift).1 : ℚ)/255)
      (max (((adjust_hue r g b shift).2.1 : ℚ)/255)
        (((adjust_hue r g b shift).2.2 : ℚ)/255)) =
      max ((r:ℚ)/255) (max ((g:ℚ)/255) ((b:ℚ)/255)) := by
    rw [cast255_max, cast255_max, cast255_max, cast255_max, hmax]
  have hmin' : min (((adjust_hue r g b shift).1 : ℚ)/255)
      (min (((adjust_hue r g b shift).2.1 : ℚ)/255)
        (((adjust_hue r g b shift).2.2 : ℚ)/255)) =
      min ((r:ℚ)/255) (min ((g:ℚ)/255) ((b:ℚ)/255)) := by
    rw [cast255_min, cast255_min, cast255_min, cast255_min, hmin]
  have key := rgb_to_hsv_sv_eq_of_minmax _ _ _ _ _ _ hmax' hmin'
  refine ⟨?_, ?_, ?_⟩
  · simpa only [outputHSV, inputHSV] using key.1
  · simpa only [outputHSV, inputHSV] using key.2
  · intro hsnz
    simp only [inputHSV] at hsnz ⊢
    have hmem := rgb_to_hsv_sat_mem ((r:ℚ)/255) ((g:ℚ)/255) ((b:ℚ)/255) h0r h0g h0b
    have hS0 : 0 < (rgb_to_hsv ((r:ℚ)/255) ((g:ℚ)/255) ((b:ℚ)/255)).2.1 :=
      lt_of_le_of_ne hmem.1 (Ne.symm hsnz)
    have hgrey := rgb_to_hsv_not_grey_of_sat_ne _ _ _ hsnz
    have hV0 : 0 < (rgb_to_hsv ((r:ℚ)/255) ((g:ℚ)/255) ((b:ℚ)/255)).2.2 := by
      rw [rgb_to_hsv_val]
      exact max₃_pos_of_ne h0r h0g h0b hgrey
    simp only [hsvRoundtrip]
    exact hsv_then_rgb _ _ _ (mod1_nonneg _) (mod1_lt_one _) hS0 hmem.2 hV0

/-- C4 (witness): the contract at the chromatic input `(219, 68, 55)`
with shift `1/3`. -/
theorem adjust_hue_preserves_saturation_value_witness :
    (outputHSV 219 68 55 (1/3)).2.1 = (inputHSV 219 68 55).2.1 ∧
    (outputHSV 219 68 55 (1/3)).2.2 = (inputHSV 219 68 55).2.2 ∧
    ((inputHSV 219 68 55).2.1 ≠ 0 →
      hsvRoundtrip (mod1 ((inputHSV 219 68 55).1 + 1/3)) (inputHSV 219 68 55).2.1
          (inputHSV 219 68 55).2.2 =
        (mod1 ((inputHSV 219 68 55).1 + 1/3), (inputHSV 219 68 55).2.1,
          (inputHSV 219 68 55).2.2)) :=
  adjust_hue_preserves_saturation_value 219 68 55 (1/3) (by norm_num)
    (by norm_num) (by norm_num) (by norm_num) (by norm_num) (by norm_num)

/-- C5: a hue shift of exactly 0.0, or of exactly 1.0, returns the
original color unchanged, for every color with 8-bit channels. -/
theorem adjust_hue_identity_at_null_or_full_shift (r g b : ℤ)
    (hr0 : 0 ≤ r) (_hr1 : r ≤ 255) (hg0 : 0 ≤ g) (_hg1 : g ≤ 255)
    (hb0 : 0 ≤ b) (_hb1 : b ≤ 255) :
    adjust_hue r g b 0 = (r, g, b) ∧ adjust_hue r g b 1 = (r, g, b) :=
  adjust_hue_id r g b hr0 hg0 hb0

/-- C5 (witness): the identity at the base color `(219, 68, 55)`. -/
theorem adjust_hue_identity_at_null_or_full_shift_witness :
    adjust_hue 219 68 55 0 = (219, 68, 55) ∧
    adjust_hue 219 68 55 1 = (219, 68, 55) :=
  adjust_hue_identity_at_null_or_full_shift 219 68 55 (by norm_num)
    (by norm_num) (by norm_num) (by norm_num) (by norm_num) (by norm_num)

/-- C9: for channels in [0, 255] and any rational hue shift,
`adjust_hue` (a total function in this embedding — no error branch
exists) returns integer channels that are again all in [0, 255]. -/
theorem adjust_hue_output_channels_in_range (r g b : ℤ) (shift : ℚ)
    (hr0 : 0 ≤ r) (hr1 : r ≤ 255) (hg0 : 0 ≤ g) (hg1 : g ≤ 255)
    (hb0 : 0 ≤ b) (hb1 : b ≤ 255) :
    0 ≤ (adjust_hue r g b shift).1 ∧ (adjust_hue r g b shift).1 ≤ 255 ∧
    0 ≤ (adjust_hue r g b shift).2.1 ∧ (adjust_hue r g b shift).2.1 ≤ 255 ∧
    0 ≤ (adjust_hue r g b shift).2.2 ∧ (adjust_hue r g b shift).2.2 ≤ 255 := by
  obtain ⟨hmax, hmin⟩ := adjust_hue_extremes r g b shift hr0 hg0 hb0
  have hM : max r (max g b) ≤ 255 := max_le hr1 (max_le hg1 hb1)
  have hm : 0 ≤ min r (min g b) := le_min hr0 (le_min hg0 hb0)
  have h1 : (adjust_hue r g b shift).1 ≤ max r (max g b) := by
    rw [← hmax]; exact le_max_left _ _
  have h2 : (adjust_hue r g b shift).2.1 ≤ max r (max g b) := by
    rw [← hmax]; exact (le_max_left _ _).trans (le_max_right _ _)
  have h3 : (adjust_hue r g b shift).2.2 ≤ max r (max g b) := by
    rw [← hmax]; exact (le_max_right _ _).trans (le_max_right _ _)
  have g1 : min r (min g b) ≤ (adjust_hue r g b shift).1 := by
    rw [← hmin]; exact min_le_left _ _
  have g2 : min r (min g b) ≤ (adjust_hue r g b shift).2.1 := by
    rw [← hmin]; exact (min_le_right _ _).trans (min_le_left _ _)
  have g3 : min r (min g b) ≤ (adjust_hue r g b shift).2.2 := by
    rw [← hmin]; exact (min_le_right _ _).trans (min_le_right _ _)
  exact ⟨by linarith, by linarith, by linarith, by linarith, by linarith,
    by linarith⟩

/-- C9 (witness): the range guarantee at `(219, 68, 55)` with the
negative shift `-7/3`. -/
theorem adjust_hue_output_channels_in_range_witness :
    0 ≤ (adjust_hue 219 68 55 (-7/3)).1 ∧ (adjust_hue 219 68 55 (-7/3)).1 ≤ 255 ∧
    0 ≤ (adjust_hue 219 68 55 (-7/3)).2.1 ∧ (adjust_hue 219 68 55 (-7/3)).2.1 ≤ 255 ∧
    0 ≤ (adjust_hue 219 68 55 (-7/3)).2.2 ∧ (adjust_hue 219 68 55 (-7/3)).2.2 ≤ 255 :=
  adjust_hue_output_channels_in_range 219 68 55 (-7/3) (by norm_num)
    (by norm_num) (by norm_num) (by norm_num) (by norm_num) (by norm_num)

/-- C10: `adjust_hue` depends on its shift only modulo 1.0 — adding any
integer to the shift leaves the result unchanged; in particular the
batch's final iteration (`i = 20`, shift `20 * (1/20) = 1.0`) produces
exactly the unshifted base colors on the outer ring. -/
theorem adjust_hue_depends_on_shift_mod_one (r g b : ℤ) (shift : ℚ) (k : ℤ)
    (_hr0 : 0 ≤ r) (_hr1 : r ≤ 255) (_hg0 : 0 ≤ g) (_hg1 : g ≤ 255)
    (_hb0 : 0 ≤ b) (_hb1 : b ≤ 255) :
    adjust_hue r g b (shift + k) = adjust_hue r g b shift ∧
    adjust_hue 219 68 55 (batch_shift 20) = (219, 68, 55) ∧
    adjust_hue 244 180 0 (batch_shift 20) = (244, 180, 0) ∧
    adjust_hue 15 157 88 (batch_shift 20) = (15, 157, 88) := by
  have hb20 : batch_shift 20 = 1 := by norm_num [batch_shift]
  refine ⟨adjust_hue_shift_add_int r g b shift k, ?_, ?_, ?_⟩
  · rw [hb20]
    exact (adjust_hue_id 219 68 55 (by norm_num) (by norm_num) (by norm_num)).2
  · rw [hb20]
    exact (adjust_hue_id 244 180 0 (by norm_num) (by norm_num) (by norm_num)).2
  · rw [hb20]
    exact (adjust_hue_id 15 157 88 (by norm_num) (by norm_num) (by norm_num)).2

/-- C10 (witness): periodicity at `(219, 68, 55)`, shift `1/5`, `k = 3`. -/
theorem adjust_hue_depends_on_shift_mod_one_witness :
    adjust_hue 219 68 55 (1/5 + (3:ℤ)) = adjust_hue 219 68 55 (1/5) ∧
    adjust_hue 219 68 55 (batch_shift 20) = (219, 68, 55) ∧
    adjust_hue 244 180 0 (batch_shift 20) = (244, 180, 0) ∧
    adjust_hue 15 157 88 (batch_shift 20) = (15, 157, 88) :=
  adjust_hue_depends_on_shift_mod_one 219 68 55 (1/5) 3 (by norm_num)
    (by norm_num) (by norm_num) (by norm_num) (by norm_num) (by norm_num)

/-- C6: for every label and hue shift, the renderer draws in order the
three circular sectors of the radius-120 disc (bounding box
`(8, 8, 248, 248)` centered on the 256×256 canvas) at angles 210°–330°,
330°–90° and 90°–210°, filled with the red, yellow and green base colors
each transformed by `adjust_hue` with the given shift; then the white
disc of radius 58 (`(70, 70, 186, 186)`); then the radius-50 inner
disc. -/
theorem icon_draw_sequence (n : ℤ) (s : ℚ) (tb : String → ℤ × ℤ × ℤ × ℤ) :
    (create_chrome_icon_draw_ops n s tb).take 5 =
      [ .pieslice (8, 8, 248, 248) 210 330
          (.rgb (adjust_hue 219 68 55 s).1 (adjust_hue 219 68 55 s).2.1
            (adjust_hue 219 68 55 s).2.2),
        .pieslice (8, 8, 248, 248) 330 90
          (.rgb (adjust_hue 244 180 0 s).1 (adjust_hue 244 180 0 s).2.1
            (adjust_hue 244 180 0 s).2.2),
        .pieslice (8, 8, 248, 248) 90 210
          (.rgb (adjust_hue 15 157 88 s).1 (adjust_hue 15 157 88 s).2.1
            (adjust_hue 15 157 88 s).2.2),
        .ellipse (70, 70, 186, 186) (.rgb 255 255 255),
        .ellipse (78, 78, 178, 178) (.rgb 66 133 244) ] := rfl

/-- C7 (counterexample): with a font metric reporting the bounding box
`(0, 0, 30, 40)` for the label "1", the white text is NOT drawn at the
vertically centered position `(128 - 30/2, 128 - 40/2) = (113, 108)`
claimed by the spec — the code subtracts a further 8 pixels. -/
theorem text_not_vertically_centered :
    (create_chrome_icon_draw_ops 1 0 tb0)[6]? ≠
      some (.text (113, 108) "1" (.rgb 255 255 255)) := by
  decide

/-- C7 (amended): the text is drawn with a semi-transparent black copy
(RGBA `(0,0,0,128)`) offset by exactly `(+2, +2)` beneath solid white
text; it is horizontally centered (`text_x = 128 - width // 2`) but its
vertical position is `text_y = 128 - height // 2 - 8`, i.e. the
measured-box centering adjusted upward by a constant 8 pixels. -/
theorem text_layout_shadow_and_offset_centering (n : ℤ) (s : ℚ)
    (tb : String → ℤ × ℤ × ℤ × ℤ) :
    (create_chrome_icon_draw_ops n s tb)[5]? =
      some (.text (128 - Int.fdiv ((tb (toString n)).2.2.1 - (tb (toString n)).1) 2 + 2,
                   128 - Int.fdiv ((tb (toString n)).2.2.2 - (tb (toString n)).2.1) 2 - 8 + 2)
            (toString n) (.rgba 0 0 0 128)) ∧
    (create_chrome_icon_draw_ops n s tb)[6]? =
      some (.text (128 - Int.fdiv ((tb (toString n)).2.2.1 - (tb (toString n)).1) 2,
                   128 - Int.fdiv ((tb (toString n)).2.2.2 - (tb (toString n)).2.1) 2 - 8)
            (toString n) (.rgb 255 255 255)) := ⟨rfl, rfl⟩

/-- C8 (counterexample): the renderer itself performs no directory
creation at all — its filesystem trace for a path in a missing
directory contains no `makedirs` effect, refuting the claim that the
renderer creates the output directory before writing. -/
theorem renderer_performs_no_directory_creation :
    ((create_chrome_icon_fs_effects "missing/icon.ico").all
      fun e => ! e.isMakedirs) = true := by
  decide

/-- C8 (amended): directory creation is the Batch Driver's job, not the
renderer's: the driver's first effect is the idempotent
`os.makedirs("icons", exist_ok=True)`, issued before any render, while
the renderer's filesystem trace never contains a directory creation for
any output path. -/
theorem directory_creation_is_drivers_responsibility :
    main_effects.head? = some (.makedirs "icons" true) ∧
    ∀ p : String,
      ((create_chrome_icon_fs_effects p).all fun e => ! e.isMakedirs) = true :=
  ⟨rfl, fun _ => rfl⟩

end GenerateIcons
